import Mathlib

/-!
Verification of the BGground transcription pipeline.

The definitions below are a shallow embedding of the two pipelines of the
repository: `video_to_text.py` (chunked Google speech recognition) and
`transcribe.py` (whole-file Whisper transcription).  Durations and offsets
(Python floats) are modelled as rationals; the external recognition backend
and the per-chunk audio reads are modelled as oracles indexed by the chunk
number; the filesystem effects of the orchestrators are modelled as explicit
state passing over lists of existing paths.
-/

namespace BGground

/-- Result of one call to `recognizer.recognize_google` on a chunk
(`src/video_to_text.py`, lines 118-132): a returned string (possibly empty),
an `sr.UnknownValueError`, or an `sr.RequestError` with a message. -/
inductive RecogResult where
  | text (t : String)
  | unknownValue
  | requestError (msg : String)
deriving DecidableEq, Repr

/-- Whether `recognizer.record` succeeds in reading a chunk from the audio
source, or raises (`src/video_to_text.py`, lines 107-112; a raise here lands
in the per-chunk catch-all handler at line 137). -/
inductive ChunkRead where
  | ok
  | readError (msg : String)
deriving DecidableEq, Repr

/-- Outcome of one iteration of the chunk loop of `transcribe_audio`. -/
inductive ChunkOutcome where
  | recognized (t : String)
  | unrecognized
  | backendError (msg : String)
  | readFailed (msg : String)
deriving DecidableEq, Repr

/-- How a recognition result is classified by the two inner `except` arms
(`src/video_to_text.py`, lines 127-132). -/
def recogOutcome : RecogResult → ChunkOutcome
  | RecogResult.text t => ChunkOutcome.recognized t
  | RecogResult.unknownValue => ChunkOutcome.unrecognized
  | RecogResult.requestError m => ChunkOutcome.backendError m

/-- One attempted chunk: its chunk number, its offset, the duration passed to
`recognizer.record` and the outcome of the attempt. -/
structure ChunkAttempt where
  num : ℕ
  offset : ℚ
  requestedDuration : ℚ
  outcome : ChunkOutcome
deriving DecidableEq, Repr

/-- One iteration of the while loop of `transcribe_audio`
(`src/video_to_text.py`, lines 105-141): the chunk is recorded with duration
`min(chunk_duration, audio_duration - offset)`; if `record` raises, the
catch-all handler skips the chunk and the recognizer is never consulted,
otherwise `recognize_google` is called exactly once on the recorded chunk. -/
def chunkAttempt (read : ℕ → ChunkRead) (recog : ℕ → RecogResult)
    (D C offset : ℚ) (n : ℕ) : ChunkAttempt :=
  { num := n
    offset := offset
    requestedDuration := min C (D - offset)
    outcome :=
      match read n with
      | ChunkRead.readError m => ChunkOutcome.readFailed m
      | ChunkRead.ok => recogOutcome (recog n) }

/-- The while loop of `transcribe_audio` (`src/video_to_text.py`, lines
105-141), as a list of chunk attempts.  On every path through the body —
recognized text, `UnknownValueError`, `RequestError`, and the per-chunk
catch-all alike — `offset` is advanced by `chunk_duration` and `chunk_num` by
one.  The source fixes `chunk_duration = 30`; the loop is modelled for an
arbitrary positive chunk duration `C` (the added guard `0 < C` is vacuous at
the source's call site, and for a nonpositive step the Python loop would not
terminate at all). -/
def chunkLoop (read : ℕ → ChunkRead) (recog : ℕ → RecogResult)
    (D C offset : ℚ) (n : ℕ) : List ChunkAttempt :=
  if h : 0 < C ∧ offset < D then
    chunkAttempt read recog D C offset n ::
      chunkLoop read recog D C (offset + C) (n + 1)
  else
    []
termination_by ⌈(D - offset) / C⌉₊
decreasing_by
  have hC : 0 < C := h.1
  have e : D - (offset + C) = (D - offset) - C := by ring
  have e2 : ((D - offset) - C) / C = (D - offset) / C - 1 := by
    rw [sub_div, div_self (ne_of_gt hC)]
  have hq : 0 < (D - offset) / C := div_pos (by linarith [h.2]) hC
  have h1 : 0 < ⌈(D - offset) / C⌉ := Int.ceil_pos.mpr hq
  have e1 : ⌈(D - offset) / C - 1⌉ = ⌈(D - offset) / C⌉ - 1 :=
    Int.ceil_sub_one _
  rw [e, e2, ← Int.ceil_toNat, ← Int.ceil_toNat, e1]
  omega

/-- The `full_text` accumulator of `transcribe_audio`: on each iteration a
recognized text is appended only when it is truthy (non-empty), per
`if text:` at `src/video_to_text.py`, line 124. -/
def fullTextOf (segs : List ChunkAttempt) : List String :=
  segs.filterMap fun s =>
    match s.outcome with
    | ChunkOutcome.recognized t => if t = "" then none else some t
    | _ => none

/-- Python `' '.join`: the elements joined with a single-space separator. -/
def joinSpace : List String → String
  | [] => ""
  | [t] => t
  | t :: u :: rest => t ++ " " ++ joinSpace (u :: rest)

/-- The fixed placeholder returned when nothing was transcribed
(`src/video_to_text.py`, line 152). -/
def noSpeechPlaceholder : String := "[No speech detected in audio]"

/-- The chunk size fixed by the source (`chunk_duration = 30` at
`src/video_to_text.py`, line 100). -/
def chunk_duration : ℚ := 30

/-- `VideoToTextConverter.transcribe_audio` (`src/video_to_text.py`, lines
78-156) after the audio source has been opened: run the chunk loop from
offset 0 and chunk number 1, join the accumulated texts with single spaces,
and substitute the fixed placeholder when the joined text is empty. -/
def transcribe_audio (read : ℕ → ChunkRead) (recog : ℕ → RecogResult)
    (D C : ℚ) : String :=
  let segs := chunkLoop read recog D C 0 1
  let transcribed_text := joinSpace (fullTextOf segs)
  if transcribed_text = "" then noSpeechPlaceholder else transcribed_text

/-- `transcribe_audio` including the opening of the audio source:
`openErr = some m` models `sr.AudioFile(audio_path)` (or reading its
duration) raising, which the outer handler at lines 143-145 re-raises to the
caller; failures inside the chunk loop are handled by the per-chunk
handlers and never reach the outer handler. -/
def transcribe_audio_run (openErr : Option String) (read : ℕ → ChunkRead)
    (recog : ℕ → RecogResult) (D C : ℚ) : Except String String :=
  match openErr with
  | some m => Except.error m
  | none => Except.ok (transcribe_audio read recog D C)

/-- Sample rate and channel count of a waveform. -/
structure AudioParams where
  sampleRate : ℕ
  channels : ℕ
deriving DecidableEq, Repr

/-- `VideoToTextConverter.extract_audio` (`src/video_to_text.py`, lines
45-76): `write_audiofile` is called with codec `pcm_s16le` and
`ffmpeg_params=["-ac", "1"]`, which forces one channel, but with no `fps`
or `-ar` argument, so the written WAV keeps the source clip's sample
rate. -/
def extract_audio (source : AudioParams) : AudioParams :=
  { sampleRate := source.sampleRate, channels := 1 }

/-- `normalise_audio` (`src/transcribe.py`, lines 35-43):
`audio.set_frame_rate(16000).set_channels(1)` before exporting. -/
def normalise_audio (_source : AudioParams) : AudioParams :=
  { sampleRate := 16000, channels := 1 }

/-- Python `transcribed_text.split('. ')` on the character list: scan left
to right; each occurrence of `'.'` followed by `' '` ends the current piece
and both separator characters are consumed.  `acc` holds the current piece
reversed. -/
def splitDotSpace (s acc : List Char) : List (List Char) :=
  match s with
  | [] => [acc.reverse]
  | '.' :: ' ' :: rest => acc.reverse :: splitDotSpace rest []
  | c :: rest => splitDotSpace rest (c :: acc)

/-- Python `str.strip()` (no argument): drop whitespace from both ends. -/
def pyStrip (l : List Char) : List Char :=
  ((l.dropWhile Char.isWhitespace).reverse.dropWhile Char.isWhitespace).reverse

/-- Python `para.endswith('.')`. -/
def endsWithDot (l : List Char) : Bool :=
  match l.getLast? with
  | some c => c = '.'
  | none => false

/-- Body-paragraph assembly of `VideoToTextConverter.create_docx`
(`src/video_to_text.py`, lines 193-205): split the transcript on ". ";
for each piece whose strip is non-empty (`if para.strip():`), emit the
stripped piece, appending a "." when the piece is not the last one and the
unstripped piece does not already end in ".". -/
def bodyParagraphs (transcribed_text : String) : List String :=
  let paragraphs := splitDotSpace transcribed_text.data []
  (paragraphs.enum.filterMap fun p =>
    if pyStrip p.2 = [] then
      none
    else
      some (pyStrip p.2 ++
        (if p.1 < paragraphs.length - 1 ∧ ¬ endsWithDot p.2 then ['.'] else []))).map
    fun l => String.mk l

/-- The document produced by `create_docx` (`src/video_to_text.py`, lines
157-219): a title heading, labeled metadata lines, the body paragraphs and
a footer attribution.  Saving the document to disk is external I/O and is
not part of the assembly. -/
structure DocxModel where
  title : String
  metadata : List (String × String)
  body : List String
  footer : String
deriving DecidableEq, Repr

/-- `VideoToTextConverter.create_docx` as document assembly: total in the
transcript (no operation on the transcript can raise). -/
def create_docx (videoName language timestamp transcribed_text : String) :
    DocxModel :=
  { title := "Video Transcription"
    metadata := [("Source Video: ", videoName),
                 ("Transcription Date: ", timestamp),
                 ("Language: ", language)]
    body := bodyParagraphs transcribed_text
    footer := "Generated by Video to Text Converter" }

/-- Failure-injection points for `VideoToTextConverter.convert`
(`src/video_to_text.py`, lines 221-253, with `extract_audio` at 45-76):
`VideoFileClip` raising (before the temp file exists), `video.audio` being
`None` (a `ValueError` after the temp file exists), `write_audiofile`
raising, `transcribe_audio` raising (a hard audio-read error), and
`create_docx` / `doc.save` raising. -/
inductive ConvertFail where
  | loadVideo
  | noAudioTrack
  | writeAudio
  | transcribeStep
  | createDocxStep
deriving DecidableEq, Repr

/-- State of the converter's single temporary audio file: whether
`self.temp_audio_path` has been set (the `mkstemp` ran), whether the file
currently exists on disk, and how many times it has been removed. -/
structure TempState where
  created : Bool
  present : Bool
  deletes : ℕ
deriving DecidableEq, Repr

/-- Final observation of one `convert` run. -/
structure ConvertEnd where
  tempCreated : Bool
  tempPresent : Bool
  tempDeletes : ℕ
  ok : Bool
deriving DecidableEq, Repr

/-- The `finally` block of `convert` (`src/video_to_text.py`, lines
246-253): remove the temp file iff `self.temp_audio_path` is set and the
path still exists. -/
def convertFinally (s : TempState) (ok : Bool) : ConvertEnd :=
  if s.created ∧ s.present then
    { tempCreated := s.created, tempPresent := false,
      tempDeletes := s.deletes + 1, ok := ok }
  else
    { tempCreated := s.created, tempPresent := s.present,
      tempDeletes := s.deletes, ok := ok }

/-- `VideoToTextConverter.convert` (`src/video_to_text.py`, lines 221-253):
extract audio, transcribe, create the document, all inside a `try` whose
`finally` cleans up the temp file; any raise propagates after cleanup. -/
def convert_run (fail : Option ConvertFail) : ConvertEnd :=
  if fail = some ConvertFail.loadVideo then
    convertFinally { created := false, present := false, deletes := 0 } false
  else
    let s1 : TempState := { created := true, present := true, deletes := 0 }
    if fail = some ConvertFail.noAudioTrack then convertFinally s1 false
    else if fail = some ConvertFail.writeAudio then convertFinally s1 false
    else if fail = some ConvertFail.transcribeStep then convertFinally s1 false
    else if fail = some ConvertFail.createDocxStep then convertFinally s1 false
    else convertFinally s1 true

/-- The audio-only suffixes recognised by `ensure_audio`
(`src/transcribe.py`, line 22). -/
def audioSuffixes : List String := [".wav", ".mp3", ".m4a", ".aac", ".flac", ".ogg"]

/-- `ensure_audio` (`src/transcribe.py`, lines 19-32): when the input's
(lower-cased) suffix is an audio-only one the input path is returned
unchanged; otherwise the audio track is extracted into a fresh temp file
`t1`, which starts existing.  The suffix is passed separately rather than
parsed out of the path. -/
def ensure_audio (suffix input t1 : String) (fs : List String) :
    String × List String :=
  if suffix ∈ audioSuffixes then (input, fs) else (t1, t1 :: fs)

/-- Failure-injection points for `main` of `src/transcribe.py` (lines
59-85): `AudioSegment.from_file` raising inside `normalise_audio` (before
its temp file exists), `audio.export` raising (after its temp file
exists), `transcribe_audio` raising inside the `try`, and `save_to_docx`
raising after the `finally` already ran. -/
inductive MainFail where
  | normaliseOpen
  | normaliseExport
  | transcribeStep
  | saveStep
deriving DecidableEq, Repr

/-- Final observation of one `transcribe.py main` run: the files existing
afterwards, whether each temp was created, how many times each was
unlinked, and whether the run completed without raising. -/
structure MainEnd where
  fs : List String
  t1Created : Bool
  t1Deletes : ℕ
  t2Created : Bool
  t2Deletes : ℕ
  ok : Bool
deriving DecidableEq, Repr

/-- The `finally` block of `main` (`src/transcribe.py`, lines 74-79):
unlink `audio_source` when it differs from the input and still exists,
then unlink the normalised temp when it still exists.  Returns the
filesystem and the two unlink counts. -/
def mainFinally (input audioSource t2 : String) (fs : List String) :
    List String × ℕ × ℕ :=
  let step1 : List String × ℕ :=
    if audioSource ≠ input ∧ audioSource ∈ fs then (fs.erase audioSource, 1)
    else (fs, 0)
  let step2 : List String × ℕ :=
    if t2 ∈ step1.1 then (step1.1.erase t2, 1) else (step1.1, 0)
  (step2.1, step1.2, step2.2)

/-- `main` of `src/transcribe.py` (lines 59-85): `ensure_audio`, then
`normalise_audio` (outside any `try`), then `transcribe_audio` inside a
`try` whose `finally` unlinks the temps, then `save_to_docx`.  A raise in
`normalise_audio` happens before the `try`/`finally` is entered, so no
cleanup runs on that path. -/
def main_run (suffix input t1 t2 : String) (fs0 : List String)
    (fail : Option MainFail) : MainEnd :=
  let ea := ensure_audio suffix input t1 fs0
  let audioSource := ea.1
  let fs1 := ea.2
  let t1Created := decide (¬ suffix ∈ audioSuffixes)
  match fail with
  | some MainFail.normaliseOpen =>
      { fs := fs1, t1Created := t1Created, t1Deletes := 0,
        t2Created := false, t2Deletes := 0, ok := false }
  | some MainFail.normaliseExport =>
      { fs := t2 :: fs1, t1Created := t1Created, t1Deletes := 0,
        t2Created := true, t2Deletes := 0, ok := false }
  | some MainFail.transcribeStep =>
      let fin := mainFinally input audioSource t2 (t2 :: fs1)
      { fs := fin.1, t1Created := t1Created, t1Deletes := fin.2.1,
        t2Created := true, t2Deletes := fin.2.2, ok := false }
  | some MainFail.saveStep =>
      let fin := mainFinally input audioSource t2 (t2 :: fs1)
      { fs := fin.1, t1Created := t1Created, t1Deletes := fin.2.1,
        t2Created := true, t2Deletes := fin.2.2, ok := false }
  | none =>
      let fin := mainFinally input audioSource t2 (t2 :: fs1)
      { fs := fin.1, t1Created := t1Created, t1Deletes := fin.2.1,
        t2Created := true, t2Deletes := fin.2.2, ok := true }

/-- A run in which every chunk is read from the audio source without
incident. -/
def readAllOk : ℕ → ChunkRead := fun _ => ChunkRead.ok

/-- A run in which reading chunk 2 from the audio source raises and every
other chunk reads fine. -/
def readFailsAt2 : ℕ → ChunkRead := fun n =>
  if n = 2 then ChunkRead.readError "audio source unreadable" else ChunkRead.ok

/-- A backend that recognizes the same text on every chunk. -/
def recogHello : ℕ → RecogResult := fun _ => RecogResult.text "hello"

/-- A backend that answers chunk 2 with a backend error and every other of
five chunks with a distinct text. -/
def recogDrop2 : ℕ → RecogResult := fun n =>
  match n with
  | 1 => RecogResult.text "t1"
  | 2 => RecogResult.requestError "backend down"
  | 3 => RecogResult.text "t3"
  | 4 => RecogResult.text "t4"
  | _ => RecogResult.text "t5"

/-- A backend that never understands any chunk. -/
def recogNever : ℕ → RecogResult := fun _ => RecogResult.unknownValue

lemma ceil_div_sub_one {q : ℚ} (hq : 0 < q) : ⌈q - 1⌉₊ + 1 = ⌈q⌉₊ := by
  have h1 : 0 < ⌈q⌉ := Int.ceil_pos.mpr hq
  have e1 : ⌈q - 1⌉ = ⌈q⌉ - 1 := Int.ceil_sub_one q
  rw [← Int.ceil_toNat, ← Int.ceil_toNat, e1]
  omega

lemma ceil_chunk_succ {D C offset : ℚ} (hC : 0 < C) (hoff : offset < D) :
    ⌈(D - (offset + C)) / C⌉₊ + 1 = ⌈(D - offset) / C⌉₊ := by
  have e : D - (offset + C) = (D - offset) - C := by ring
  have e2 : ((D - offset) - C) / C = (D - offset) / C - 1 := by
    rw [sub_div, div_self hC.ne']
  rw [e, e2]
  exact ceil_div_sub_one (div_pos (by linarith) hC)

/-- Closed form of the chunk loop: starting at `offset`, the loop performs
`⌈(D - offset) / C⌉₊` iterations, the `k`-th attempt sitting at offset
`offset + k·C` with chunk number `n + k`. -/
lemma chunkLoop_closed (read : ℕ → ChunkRead) (recog : ℕ → RecogResult)
    {D C : ℚ} (hC : 0 < C) :
    ∀ (m : ℕ) (offset : ℚ) (n : ℕ), ⌈(D - offset) / C⌉₊ = m →
      chunkLoop read recog D C offset n =
        (List.range m).map
          (fun k : ℕ =>
            chunkAttempt read recog D C (offset + (k : ℚ) * C) (n + k)) := by
  intro m
  induction m with
  | zero =>
    intro offset n hm
    rw [chunkLoop, dif_neg, List.range_zero, List.map_nil]
    rintro ⟨h1, h2⟩
    have hq : 0 < (D - offset) / C := div_pos (by linarith) hC
    have := Nat.ceil_pos.mpr hq
    omega
  | succ m ih =>
    intro offset n hm
    have hm0 : 0 < ⌈(D - offset) / C⌉₊ := by omega
    have hq : 0 < (D - offset) / C := Nat.ceil_pos.mp hm0
    have hoff : offset < D := by
      rcases lt_or_le offset D with h | h
      · exact h
      · exfalso
        have hx : (D - offset) / C ≤ 0 :=
          div_nonpos_iff.mpr (Or.inr ⟨by linarith, hC.le⟩)
        linarith
    rw [chunkLoop, dif_pos ⟨hC, hoff⟩]
    have hm2 : ⌈(D - (offset + C)) / C⌉₊ = m := by
      have := ceil_chunk_succ hC hoff
      omega
    rw [ih (offset + C) (n + 1) hm2]
    rw [List.range_succ_eq_map, List.map_cons, List.map_map]
    congr 1
    · simp
    · apply List.map_congr_left
      intro k hk
      simp only [Function.comp_apply]
      congr 1
      · push_cast
        ring
      · omega

/-- For a nonpositive duration (or chunk size) the loop performs no
iterations. -/
lemma chunkLoop_nil (read : ℕ → ChunkRead) (recog : ℕ → RecogResult)
    {D C offset : ℚ} (h : ¬ (0 < C ∧ offset < D)) (n : ℕ) :
    chunkLoop read recog D C offset n = [] := by
  rw [chunkLoop, dif_neg h]

/-- Every attempt produced by the loop is the attempt the loop body builds
at some step `k`. -/
lemma chunkLoop_mem (read : ℕ → ChunkRead) (recog : ℕ → RecogResult)
    {D C offset : ℚ} {n : ℕ} {a : ChunkAttempt}
    (ha : a ∈ chunkLoop read recog D C offset n) :
    ∃ k : ℕ, a = chunkAttempt read recog D C (offset + (k : ℚ) * C) (n + k) := by
  by_cases hC : 0 < C
  · rw [chunkLoop_closed read recog hC (⌈(D - offset) / C⌉₊) offset n rfl] at ha
    obtain ⟨k, hk, rfl⟩ := List.mem_map.mp ha
    exact ⟨k, rfl⟩
  · rw [chunkLoop_nil read recog (fun hcon => hC hcon.1) n] at ha
    exact absurd ha (List.not_mem_nil a)

lemma chunkAttempt_num (read : ℕ → ChunkRead) (recog : ℕ → RecogResult)
    (D C offset : ℚ) (n : ℕ) :
    (chunkAttempt read recog D C offset n).num = n := rfl

lemma chunkAttempt_outcome (read : ℕ → ChunkRead) (recog : ℕ → RecogResult)
    (D C offset : ℚ) (n : ℕ) :
    (chunkAttempt read recog D C offset n).outcome =
      match read n with
      | ChunkRead.readError m => ChunkOutcome.readFailed m
      | ChunkRead.ok => recogOutcome (recog n) := rfl

/-- Every string accumulated in `full_text` is non-empty, because of the
`if text:` guard. -/
lemma fullTextOf_ne_empty {segs : List ChunkAttempt} :
    ∀ t ∈ fullTextOf segs, t ≠ "" := by
  intro t ht
  obtain ⟨a, _, hmatch⟩ := List.mem_filterMap.mp ht
  rcases houtcome : a.outcome with u | _ | m | m <;> rw [houtcome] at hmatch <;>
    simp at hmatch
  rcases hmatch with ⟨hne, rfl⟩
  exact hne

lemma String.length_pos_of_ne {s : String} (h : s ≠ "") : 0 < s.length := by
  rcases Nat.eq_zero_or_pos s.length with h0 | h0
  · exact absurd (String.ext (List.length_eq_zero.mp h0)) h
  · exact h0

/-- Joining a non-empty list of non-empty strings with single spaces yields
a non-empty string. -/
lemma joinSpace_ne_empty :
    ∀ {l : List String}, l ≠ [] → (∀ t ∈ l, t ≠ "") → joinSpace l ≠ ""
  | [], hl, _ => absurd rfl hl
  | [t], _, h => by simpa [joinSpace] using h t (by simp)
  | t :: u :: rest, _, h => by
    have ht : t ≠ "" := h t (by simp)
    intro hcontra
    have hlen : (joinSpace (t :: u :: rest)).length = 0 := by
      rw [hcontra]
      rfl
    rw [joinSpace] at hlen
    rw [String.length_append, String.length_append] at hlen
    have := String.length_pos_of_ne ht
    omega

lemma range_getLast (n : ℕ) : (List.range (n + 1)).getLast? = some n := by
  rw [List.range_succ]
  exact List.getLast?_concat _

/-- The cleanup of `main` when `ensure_audio` passed the input through:
the first unlink is skipped (`audio_source == args.input`) and only the
normalised temp is unlinked. -/
lemma mainFinally_passthrough {input t2 : String} {fs : List String}
    (ht2 : t2 ∈ fs) :
    mainFinally input input t2 fs = (fs.erase t2, 0, 1) := by
  simp [mainFinally, ht2]

/-- The cleanup of `main` when `ensure_audio` extracted to a temp file:
both temps are unlinked once. -/
lemma mainFinally_extracted {input audioSource t2 : String} {fs : List String}
    (h1 : audioSource ≠ input) (ha : audioSource ∈ fs)
    (ht2 : t2 ∈ fs.erase audioSource) :
    mainFinally input audioSource t2 fs =
      ((fs.erase audioSource).erase t2, 1, 1) := by
  simp [mainFinally, h1, ha, ht2]

/-- C9 (implicit claim): the chunk-processing loop terminates for every
finite audio duration `D` and every positive chunk duration, whatever the
per-chunk outcomes: the loop always performs exactly `⌈D / C⌉₊` iterations,
because `offset` is advanced by `chunk_duration` on the success path, the
soft-failure paths and the catch-all path alike. -/
theorem C9_chunk_loop_terminates (read : ℕ → ChunkRead)
    (recog : ℕ → RecogResult) (D : ℚ) {C : ℚ} (hC : 0 < C) :
    (chunkLoop read recog D C 0 1).length = ⌈D / C⌉₊ := by
  rw [chunkLoop_closed read recog hC (⌈(D - 0) / C⌉₊) 0 1 rfl,
    List.length_map, List.length_range, sub_zero]

/-- Witness for C9 at `D = 45`, `C = 30`, with a read failure injected. -/
theorem C9_chunk_loop_terminates_witness :
    (0 : ℚ) < 30 ∧
      (chunkLoop readFailsAt2 recogNever 45 30 0 1).length = ⌈(45 : ℚ) / 30⌉₊ :=
  ⟨by decide, C9_chunk_loop_terminates readFailsAt2 recogNever 45 (by decide)⟩

/-- C4: for every audio duration `D > 0` and chunk size `C > 0`, the chunk
loop performs exactly `⌈D / C⌉₊` iterations, each chunk is requested with
duration `min C (D - offset)` at its offset `k·C`, and the last chunk's
requested duration is `C` when `D` is a natural multiple of `C` and
`D - C·⌊D / C⌋₊` otherwise. -/
theorem C4_chunk_schedule (read : ℕ → ChunkRead) (recog : ℕ → RecogResult)
    {D C : ℚ} (hD : 0 < D) (hC : 0 < C) :
    (chunkLoop read recog D C 0 1).length = ⌈D / C⌉₊ ∧
    (∀ k : ℕ, k < ⌈D / C⌉₊ →
      ((chunkLoop read recog D C 0 1).get? k).map ChunkAttempt.requestedDuration
        = some (min C (D - (k : ℚ) * C))) ∧
    (∀ a : ChunkAttempt, (chunkLoop read recog D C 0 1).getLast? = some a →
      ((∃ n : ℕ, D = (n : ℚ) * C) → a.requestedDuration = C) ∧
      ((∀ n : ℕ, D ≠ (n : ℚ) * C) →
        a.requestedDuration = D - C * (⌊D / C⌋₊ : ℚ))) := by
  have hid : ⌈(D - 0) / C⌉₊ = ⌈D / C⌉₊ := by rw [sub_zero]
  have hcl := chunkLoop_closed read recog hC (⌈D / C⌉₊) 0 1 hid
  refine ⟨?_, ?_, ?_⟩
  · rw [hcl, List.length_map, List.length_range]
  · intro k hk
    rw [hcl]
    simp [List.get?_eq_getElem?, List.getElem?_map, List.getElem?_range, hk, chunkAttempt]
  · intro a ha
    have hm : 0 < ⌈D / C⌉₊ := Nat.ceil_pos.mpr (div_pos hD hC)
    obtain ⟨m, hm1⟩ : ∃ m : ℕ, ⌈D / C⌉₊ = m + 1 := ⟨⌈D / C⌉₊ - 1, by omega⟩
    rw [hcl, hm1, List.getLast?_map, range_getLast] at ha
    have ha2 : chunkAttempt read recog D C (0 + (m : ℚ) * C) (1 + m) = a :=
      Option.some.inj ha
    constructor
    · rintro ⟨n, rfl⟩
      have hn : n = m + 1 := by
        have he : ⌈(n : ℚ) * C / C⌉₊ = n := by
          rw [mul_div_cancel_right₀ _ hC.ne', Nat.ceil_natCast]
        omega
      rw [← ha2]
      show min C ((n : ℚ) * C - (0 + (m : ℚ) * C)) = C
      subst hn
      have he2 : ((m : ℕ) + 1 : ℚ) * C - (0 + (m : ℚ) * C) = C := by
        ring
      rw [show ((((m : ℕ) + 1 : ℕ) : ℚ)) = ((m : ℕ) + 1 : ℚ) by norm_num,
        he2, min_self]
    · intro hnot
      have hq : 0 < D / C := div_pos hD hC
      have hfl : (⌊D / C⌋₊ : ℚ) ≤ D / C := Nat.floor_le hq.le
      have hlt : (⌊D / C⌋₊ : ℚ) < D / C := by
        rcases lt_or_eq_of_le hfl with h | h
        · exact h
        · exact absurd ((div_eq_iff hC.ne').mp h.symm) (hnot ⌊D / C⌋₊)
      have hup : D / C < (⌊D / C⌋₊ : ℚ) + 1 := Nat.lt_floor_add_one _
      have hceil : ⌈D / C⌉₊ = ⌊D / C⌋₊ + 1 := by
        have hge : ⌊D / C⌋₊ < ⌈D / C⌉₊ := Nat.lt_ceil.mpr hlt
        have hle : ⌈D / C⌉₊ ≤ ⌊D / C⌋₊ + 1 := Nat.ceil_le.mpr (by push_cast; linarith)
        omega
      have hmf : m = ⌊D / C⌋₊ := by omega
      rw [← ha2]
      show min C (D - (0 + (m : ℚ) * C)) = D - C * (⌊D / C⌋₊ : ℚ)
      have hsub : D - (m : ℚ) * C < C := by
        have hDlt : D < ((⌊D / C⌋₊ : ℚ) + 1) * C := (div_lt_iff₀ hC).mp hup
        rw [hmf]
        linarith
      have hmin : min C (D - (0 + (m : ℚ) * C)) = D - (m : ℚ) * C := by
        rw [zero_add]
        exact min_eq_right (le_of_lt hsub)
      rw [hmin, hmf]
      ring

/-- Witness for C4 at `D = 45`, `C = 30` (two chunks, last of duration 15). -/
theorem C4_chunk_schedule_witness :
    (0 : ℚ) < 45 ∧ (0 : ℚ) < 30 ∧
      (chunkLoop readAllOk recogHello 45 30 0 1).length = ⌈(45 : ℚ) / 30⌉₊ :=
  ⟨by decide, by decide,
    (C4_chunk_schedule readAllOk recogHello (by decide) (by decide)).1⟩

/-- C5: the chunked transcriber makes exactly one recognition call per chunk
(when the audio reads succeed, every attempt's outcome is the image of the
backend's answer for its chunk number, and the chunk numbers are exactly
1..⌈D/C⌉ in order), processes chunks in strictly increasing offset order,
and a soft failure on one chunk never discards the others: with 5 chunks
where chunk 2 throws a backend error, the transcript still contains the
texts of chunks 1, 3, 4, 5 in that order. -/
theorem C5_per_chunk_isolation (read : ℕ → ChunkRead)
    (recog : ℕ → RecogResult) {D C : ℚ} (hC : 0 < C)
    (hread : ∀ n, read n = ChunkRead.ok) :
    ((chunkLoop read recog D C 0 1).map ChunkAttempt.num
        = (List.range ⌈D / C⌉₊).map (fun k => k + 1)) ∧
    (∀ a ∈ chunkLoop read recog D C 0 1,
      a.outcome = recogOutcome (recog a.num)) ∧
    ((chunkLoop read recog D C 0 1).map ChunkAttempt.offset).Pairwise (· < ·) ∧
    transcribe_audio readAllOk recogDrop2 150 30 = "t1 t3 t4 t5" := by
  have hid : ⌈(D - 0) / C⌉₊ = ⌈D / C⌉₊ := by rw [sub_zero]
  have hcl := chunkLoop_closed read recog hC (⌈D / C⌉₊) 0 1 hid
  refine ⟨?_, ?_, ?_, ?_⟩
  · rw [hcl, List.map_map]
    apply List.map_congr_left
    intro k hk
    show (chunkAttempt read recog D C (0 + (k : ℚ) * C) (1 + k)).num = k + 1
    rw [chunkAttempt_num]
    omega
  · intro a ha
    obtain ⟨k, rfl⟩ := chunkLoop_mem read recog ha
    rw [chunkAttempt_outcome, hread]
    rfl
  · rw [hcl, List.map_map]
    refine List.Pairwise.map _ ?_ (List.pairwise_lt_range _)
    intro k j hkj
    show (0 : ℚ) + (k : ℚ) * C < 0 + (j : ℚ) * C
    rw [zero_add, zero_add]
    exact mul_lt_mul_of_pos_right (by exact_mod_cast hkj) hC
  · have h5 := chunkLoop_closed readAllOk recogDrop2 (D := 150) (C := 30)
      (by norm_num) 5 0 1 (by norm_num)
    simp only [transcribe_audio, h5]
    decide

/-- Witness for C5: with all reads succeeding, the five chunks carry chunk
numbers 1..5. -/
theorem C5_per_chunk_isolation_witness :
    (chunkLoop readAllOk recogDrop2 150 30 0 1).map ChunkAttempt.num
      = (List.range ⌈(150 : ℚ) / 30⌉₊).map (fun k => k + 1) :=
  (C5_per_chunk_isolation readAllOk recogDrop2 (by decide) (fun _ => rfl)).1

/-- C6: if zero chunks yield recognized text, `transcribe_audio` returns the
fixed placeholder "[No speech detected in audio]" (which is not the empty
string) and does not raise; otherwise it returns the accumulated texts
joined in offset order with a single-space separator. -/
theorem C6_empty_transcript_placeholder (read : ℕ → ChunkRead)
    (recog : ℕ → RecogResult) (D C : ℚ) :
    (fullTextOf (chunkLoop read recog D C 0 1) = [] →
      transcribe_audio read recog D C = noSpeechPlaceholder) ∧
    (fullTextOf (chunkLoop read recog D C 0 1) ≠ [] →
      transcribe_audio read recog D C
        = joinSpace (fullTextOf (chunkLoop read recog D C 0 1))) ∧
    noSpeechPlaceholder ≠ "" := by
  refine ⟨?_, ?_, by decide⟩
  · intro h
    simp only [transcribe_audio, h]
    rfl
  · intro h
    have hne := joinSpace_ne_empty h fullTextOf_ne_empty
    simp only [transcribe_audio]
    rw [if_neg hne]

/-- Witness for C6: a two-chunk run where no chunk is understood yields the
placeholder. -/
theorem C6_empty_transcript_placeholder_witness :
    transcribe_audio readAllOk recogNever 60 30 = noSpeechPlaceholder :=
  (C6_empty_transcript_placeholder readAllOk recogNever 60 30).1 (by
    rw [chunkLoop_closed readAllOk recogNever (by norm_num) 2 0 1 (by norm_num)]
    decide)

/-- C1 counterexample: reading chunk 2 from the audio source raises, yet
`transcribe_audio` does not propagate the error — the catch-all handler at
`src/video_to_text.py`, line 137 skips the chunk and the job returns the
transcript of the remaining chunk. -/
theorem C1_counterexample :
    readFailsAt2 2 = ChunkRead.readError "audio source unreadable" ∧
    transcribe_audio_run none readFailsAt2 recogHello 60 30
      = Except.ok "hello" := by
  constructor
  · rfl
  · have h2 := chunkLoop_closed readFailsAt2 recogHello (D := 60) (C := 30)
      (by norm_num) 2 0 1 (by norm_num)
    have h3 : transcribe_audio readFailsAt2 recogHello 60 30 = "hello" := by
      simp only [transcribe_audio, h2]
      decide
    simp only [transcribe_audio_run, h3]

/-- C1 (amended): an error raised while opening the audio source propagates
out of `transcribe_audio`; an error raised while reading an individual chunk
is caught by the per-chunk catch-all handler, which records the chunk as
skipped, so the run still returns a transcript (never an error) and the
other chunks are unaffected. -/
theorem C1_read_error_containment (openErr : Option String)
    (read : ℕ → ChunkRead) (recog : ℕ → RecogResult) (D C : ℚ) (m : String) :
    (openErr = some m →
      transcribe_audio_run openErr read recog D C = Except.error m) ∧
    (transcribe_audio_run none read recog D C
      = Except.ok (transcribe_audio read recog D C)) ∧
    (∀ a ∈ chunkLoop read recog D C 0 1,
      read a.num = ChunkRead.readError m →
        a.outcome = ChunkOutcome.readFailed m) := by
  refine ⟨?_, rfl, ?_⟩
  · rintro rfl
    rfl
  · intro a ha hr
    obtain ⟨k, rfl⟩ := chunkLoop_mem read recog ha
    rw [chunkAttempt_num] at hr
    rw [chunkAttempt_outcome, hr]

/-- Witness for C1 (amended): a failure opening the audio source is
re-raised to the caller. -/
theorem C1_read_error_containment_witness :
    transcribe_audio_run (some "disk gone") readAllOk recogHello 60 30
      = Except.error "disk gone" :=
  (C1_read_error_containment (some "disk gone") readAllOk recogHello 60 30
    "disk gone").1 rfl

/-- C7: document assembly splits the transcript into body paragraphs on
". " and re-appends the stripped trailing period: the transcript
"Hello. World." yields exactly the two body paragraphs "Hello." and
"World." in transcript order. -/
theorem C7_sentence_split :
    bodyParagraphs "Hello. World." = ["Hello.", "World."] := by decide

/-- C8 counterexample: for the empty transcript, `create_docx` produces an
empty body section (zero body paragraphs), so document assembly itself does
not prevent an empty document body. -/
theorem C8_counterexample :
    (create_docx "video.mp4" "en-US" "2026-01-01 00:00:00" "").body = [] := by
  decide

/-- C8 (amended): document assembly is total in the transcript — for every
transcript, including the empty string and the placeholder, `create_docx`
returns the document with title, metadata, body paragraphs and footer
(nothing on the transcript path can raise); given the placeholder
transcript it renders the placeholder text as the sole body paragraph.  An
empty transcript, however, yields an empty body section: the no-empty-body
guarantee comes from `transcribe_audio` substituting the placeholder
upstream, not from `create_docx`. -/
theorem C8_placeholder_sole_paragraph
    (videoName language timestamp t : String) :
    create_docx videoName language timestamp t =
      { title := "Video Transcription"
        metadata := [("Source Video: ", videoName),
                     ("Transcription Date: ", timestamp),
                     ("Language: ", language)]
        body := bodyParagraphs t
        footer := "Generated by Video to Text Converter" } ∧
    (create_docx videoName language timestamp noSpeechPlaceholder).body
      = [noSpeechPlaceholder] :=
  ⟨rfl, (by decide : bodyParagraphs noSpeechPlaceholder = [noSpeechPlaceholder])⟩

/-- C2 counterexample: for a 44.1 kHz stereo source, `extract_audio` forces
one channel but keeps the source sample rate, so the waveform handed to the
recognizer in the `video_to_text.py` pipeline is not at 16 kHz. -/
theorem C2_counterexample :
    extract_audio { sampleRate := 44100, channels := 2 }
        = { sampleRate := 44100, channels := 1 } ∧
    (extract_audio { sampleRate := 44100, channels := 2 }).sampleRate
        ≠ 16000 := by
  decide

/-- C2 (amended): the Whisper pipeline's `normalise_audio` always produces
a 16 kHz mono waveform; the `video_to_text.py` extractor guarantees mono but
preserves the source's sample rate, so its output is at 16 kHz only when
the source already is. -/
theorem C2_normalisation_guarantee (source : AudioParams) :
    (normalise_audio source).sampleRate = 16000 ∧
    (normalise_audio source).channels = 1 ∧
    (extract_audio source).channels = 1 ∧
    (extract_audio source).sampleRate = source.sampleRate :=
  ⟨rfl, rfl, rfl, rfl⟩

/-- C10: the original input media file is never deleted on any path of
`transcribe.py`: cleanup unlinks the intermediate audio file only when its
path differs from the input path, and an audio-only input is passed through
`ensure_audio` unchanged, so the input still exists after the job ends on
success and on every failure path. -/
theorem C10_input_never_deleted (suffix input t1 t2 : String)
    (fs0 : List String) (fail : Option MainFail) (hin : input ∈ fs0)
    (_h1 : t1 ≠ input) (h2 : t2 ≠ input) :
    input ∈ (main_run suffix input t1 t2 fs0 fail).fs ∧
    (suffix ∈ audioSuffixes → (ensure_audio suffix input t1 fs0).1 = input) := by
  constructor
  · have hmemfs1 : input ∈ (ensure_audio suffix input t1 fs0).2 := by
      by_cases hs : suffix ∈ audioSuffixes <;> simp [ensure_audio, hs, hin]
    have hpres : ∀ (aSrc : String) (fs : List String), input ∈ fs →
        input ∈ (mainFinally input aSrc t2 fs).1 := by
      intro aSrc fs hmem
      simp only [mainFinally]
      by_cases hc1 : aSrc ≠ input ∧ aSrc ∈ fs
      · rw [if_pos hc1]
        have hmem1 : input ∈ fs.erase aSrc :=
          (List.mem_erase_of_ne (Ne.symm hc1.1)).mpr hmem
        by_cases hc2 : t2 ∈ fs.erase aSrc
        · rw [if_pos hc2]
          exact (List.mem_erase_of_ne (Ne.symm h2)).mpr hmem1
        · rw [if_neg hc2]
          exact hmem1
      · rw [if_neg hc1]
        by_cases hc2 : t2 ∈ fs
        · rw [if_pos hc2]
          exact (List.mem_erase_of_ne (Ne.symm h2)).mpr hmem
        · rw [if_neg hc2]
          exact hmem
    rcases fail with _ | c
    · exact hpres _ _ (List.mem_cons_of_mem _ hmemfs1)
    · cases c
      · exact hmemfs1
      · exact List.mem_cons_of_mem _ hmemfs1
      · exact hpres _ _ (List.mem_cons_of_mem _ hmemfs1)
      · exact hpres _ _ (List.mem_cons_of_mem _ hmemfs1)
  · intro hs
    simp [ensure_audio, hs]

/-- Witness for C10: an audio-only input survives a successful run. -/
theorem C10_input_never_deleted_witness :
    "in.wav" ∈ (main_run ".wav" "in.wav" "tmp1.wav" "tmp2.wav" ["in.wav"]
      none).fs :=
  (C10_input_never_deleted ".wav" "in.wav" "tmp1.wav" "tmp2.wav" ["in.wav"]
    none (by decide) (by decide) (by decide)).1

/-- C3 counterexample: in `transcribe.py`, for a video input, a failure
inside `normalise_audio` happens before the `try`/`finally` is entered, so
the temp file created by `ensure_audio` is never deleted and remains after
the job ends. -/
theorem C3_counterexample :
    (main_run ".mp4" "in.mp4" "tmp1.wav" "tmp2.wav" ["in.mp4"]
        (some MainFail.normaliseOpen)).t1Created = true ∧
    "tmp1.wav" ∈ (main_run ".mp4" "in.mp4" "tmp1.wav" "tmp2.wav" ["in.mp4"]
        (some MainFail.normaliseOpen)).fs ∧
    (main_run ".mp4" "in.mp4" "tmp1.wav" "tmp2.wav" ["in.mp4"]
        (some MainFail.normaliseOpen)).t1Deletes = 0 := by
  decide

/-- C3 (amended): `VideoToTextConverter.convert` deletes its temporary
audio file exactly once (when one was created) and leaves none behind on
every exit path; in `transcribe.py main` the same holds on success, on a
transcription failure and on an output-write failure, but a failure inside
`normalise_audio` occurs before the `try`/`finally`, leaking the temp file
created by `ensure_audio` (and the normalised temp, if already created). -/
theorem C3_cleanup_amended :
    (∀ fail : Option ConvertFail,
      (convert_run fail).tempPresent = false ∧
      (convert_run fail).tempDeletes
        = (if (convert_run fail).tempCreated then 1 else 0)) ∧
    (∀ (suffix input t1 t2 : String) (fs0 : List String)
        (fail : Option MainFail),
      t1 ≠ input → t2 ≠ input → t1 ≠ t2 → t1 ∉ fs0 → t2 ∉ fs0 →
      fail ≠ some MainFail.normaliseOpen →
      fail ≠ some MainFail.normaliseExport →
        t1 ∉ (main_run suffix input t1 t2 fs0 fail).fs ∧
        t2 ∉ (main_run suffix input t1 t2 fs0 fail).fs ∧
        (main_run suffix input t1 t2 fs0 fail).t2Deletes = 1 ∧
        (main_run suffix input t1 t2 fs0 fail).t1Deletes
          = (if (main_run suffix input t1 t2 fs0 fail).t1Created then 1
             else 0)) := by
  constructor
  · intro fail
    cases fail with
    | none => decide
    | some c => cases c <;> decide
  · intro suffix input t1 t2 fs0 fail h1 h2 h12 hn1 hn2 hf1 hf2
    by_cases hs : suffix ∈ audioSuffixes
    · have hea : ensure_audio suffix input t1 fs0 = (input, fs0) := by
        simp [ensure_audio, hs]
      have hfin : mainFinally input input t2 (t2 :: fs0) = (fs0, 0, 1) := by
        rw [mainFinally_passthrough (List.mem_cons_self t2 fs0),
          List.erase_cons_head]
      rcases fail with _ | c
      · simp only [main_run, hea, hfin]
        simp [hs, hn1, hn2]
      · cases c
        · exact absurd rfl hf1
        · exact absurd rfl hf2
        · simp only [main_run, hea, hfin]
          simp [hs, hn1, hn2]
        · simp only [main_run, hea, hfin]
          simp [hs, hn1, hn2]
    · have hea : ensure_audio suffix input t1 fs0 = (t1, t1 :: fs0) := by
        simp [ensure_audio, hs]
      have he1 : (t2 :: t1 :: fs0).erase t1 = t2 :: fs0 := by
        rw [List.erase_cons_tail (by simp [Ne.symm h12]), List.erase_cons_head]
      have hfin : mainFinally input t1 t2 (t2 :: t1 :: fs0) = (fs0, 1, 1) := by
        rw [mainFinally_extracted h1 (by simp)
          (by rw [he1]; exact List.mem_cons_self t2 fs0), he1,
          List.erase_cons_head]
      rcases fail with _ | c
      · simp only [main_run, hea, hfin]
        simp [hs, hn1, hn2]
      · cases c
        · exact absurd rfl hf1
        · exact absurd rfl hf2
        · simp only [main_run, hea, hfin]
          simp [hs, hn1, hn2]
        · simp only [main_run, hea, hfin]
          simp [hs, hn1, hn2]

/-- Witness for C3 (amended): concrete runs of both orchestrators. -/
theorem C3_cleanup_amended_witness :
    "tmp1.wav" ∉ (main_run ".mp4" "in.mp4" "tmp1.wav" "tmp2.wav" ["in.mp4"]
        (some MainFail.transcribeStep)).fs ∧
    (convert_run (some ConvertFail.createDocxStep)).tempPresent = false :=
  ⟨(C3_cleanup_amended.2 ".mp4" "in.mp4" "tmp1.wav" "tmp2.wav" ["in.mp4"]
      (some MainFail.transcribeStep) (by decide) (by decide) (by decide)
      (by decide) (by decide) (by decide) (by decide)).1,
   (C3_cleanup_amended.1 (some ConvertFail.createDocxStep)).1⟩

end BGground
